import Mathlib

/-!
Verification development for the bc125csv repository.

The definitions below are a shallow embedding of the Python sources
`bc125csv/importer.py` (class `Importer`) and `bc125csv/handler.py`
(the `import` command of `main`).  CSV input is modelled as a sequence of
raw records (`List (List String)`), matching the spec's
`read(rows: sequence of raw CSV records)`.  All strings handled by the
program are ASCII, so Python's `str.strip`, `str.lower` and `str.upper`
are embedded as ASCII-only operations on `List Char`.
-/

/-- The empty string (used as the default for absent CSV fields, matching
Python's falsy empty string). -/
def blank : String := ""

/-- Python whitespace as stripped by `str.strip` and matched by regex
whitespace for the ASCII inputs this program handles. -/
def isSpace (c : Char) : Bool :=
  c == ' ' || c == '\t' || c == '\n' || c == '\r' || c == '\x0b' || c == '\x0c'

/-- ASCII decimal digit test (regex `\d` / Python `int` digits for ASCII). -/
def isDigitB (c : Char) : Bool :=
  48 ≤ c.toNat && c.toNat ≤ 57

/-- ASCII lowercasing of one character (Python `str.lower` on ASCII). -/
def lowerChar (c : Char) : Char :=
  if 65 ≤ c.toNat ∧ c.toNat ≤ 90 then Char.ofNat (c.toNat + 32) else c

/-- ASCII uppercasing of one character (Python `str.upper` on ASCII). -/
def upperChar (c : Char) : Char :=
  if 97 ≤ c.toNat ∧ c.toNat ≤ 122 then Char.ofNat (c.toNat - 32) else c

/-- Python `str.lower` (ASCII). -/
def lowerStr (s : String) : String :=
  String.mk (s.data.map lowerChar)

/-- Python `str.upper` (ASCII). -/
def upperStr (s : String) : String :=
  String.mk (s.data.map upperChar)

/-- Python `str.strip` (ASCII whitespace). -/
def trimStr (s : String) : String :=
  String.mk (((s.data.dropWhile isSpace).reverse.dropWhile isSpace).reverse)

/-- Modelled from the spec: `CTCSS_TONES` from `bc125csv/scanner.py`, which is
not part of the provided sources.  Per spec section 4.1 it is a static ordered
sequence of the standard CTCSS sub-audible tone frequencies, each rendered as
a decimal string like "114.8". -/
def CTCSS_TONES : List String :=
  ["67.0", "69.3", "71.9", "74.4", "77.0", "79.7", "82.5", "85.4",
   "88.5", "91.5", "94.8", "97.4", "100.0", "103.5", "107.2", "110.9",
   "114.8", "118.8", "123.0", "127.3", "131.8", "136.5", "141.3", "146.2",
   "151.4", "156.7", "159.8", "162.2", "165.5", "167.9", "171.3", "173.8",
   "177.3", "179.9", "183.5", "186.2", "189.9", "192.8", "196.6", "199.5",
   "203.5", "206.5", "210.7", "218.1", "225.7", "229.1", "233.6", "241.8",
   "250.3", "254.1"]

/-- Modelled from the spec: `DCS_CODES` from `bc125csv/scanner.py`, which is
not part of the provided sources.  Per spec section 4.1 it is a static ordered
sequence of the standard DCS codes as zero-padded 3-digit strings. -/
def DCS_CODES : List String :=
  ["023", "025", "026", "031", "032", "036", "043", "047",
   "051", "053", "054", "065", "071", "072", "073", "074",
   "114", "115", "116", "122", "125", "131", "132", "134",
   "143", "145", "152", "155", "156", "162", "165", "172",
   "174", "205", "212", "223", "225", "226", "243", "244",
   "245", "246", "251", "252", "255", "261", "263", "265",
   "266", "271", "274", "306", "311", "315", "325", "331",
   "332", "343", "346", "351", "356", "364", "365", "371",
   "411", "412", "413", "423", "431", "432", "445", "446",
   "452", "454", "455", "462", "464", "465", "466", "503",
   "506", "516", "523", "526", "532", "546", "565", "606",
   "612", "624", "627", "631", "632", "654", "662", "664",
   "703", "712", "723", "731", "732", "734", "743", "754"]

/-- First index of a string in a list (Python `list.index`, fused with the
preceding `in` membership test: `none` when absent). -/
def idxFrom : Nat → List String → String → Option Nat
  | _, [], _ => none
  | i, x :: xs, t => if x = t then some i else idxFrom (i + 1) xs t

/-- Value of an ASCII digit character. -/
def digitVal (c : Char) : Nat := c.toNat - 48

/-- Numeric value of a digit string. -/
def natOfDigits (l : List Char) : Nat :=
  l.foldl (fun a c => a * 10 + digitVal c) 0

/-- Python `int(text)` over the characters of an (already stripped) CSV
field: an optional sign followed by one or more decimal digits. -/
def parseIntL : List Char → Option Int
  | [] => none
  | c :: ds =>
    if c = '+' then
      if ds ≠ [] ∧ ds.all isDigitB then some (Int.ofNat (natOfDigits ds)) else none
    else if c = '-' then
      if ds ≠ [] ∧ ds.all isDigitB then some (-(Int.ofNat (natOfDigits ds))) else none
    else if (c :: ds).all isDigitB then some (Int.ofNat (natOfDigits (c :: ds))) else none

/-- Python `int(text)` on a string field. -/
def parseInt (s : String) : Option Int :=
  parseIntL s.data

/-- Check for the regex tail `\s*(?:hz)?$` of `RE_CTCSS` (case-insensitive). -/
def toneSuffix (l : List Char) : Bool :=
  (l.dropWhile isSpace) == [] || ((l.dropWhile isSpace).map lowerChar) == ['h', 'z']

/-- The optional case-insensitive `ctcss` prefix and the `\s*` after it in
`RE_CTCSS`.  (The anchored regex is deterministic here: a letter can only be
consumed by the prefix and whitespace only by `\s*`.) -/
def ctcssStrip (l : List Char) : List Char :=
  (if ((l.take 5).map lowerChar) == ['c', 't', 'c', 's', 's'] then l.drop 5 else l).dropWhile isSpace

/-- The `\.\d\s*(?:hz)?$` tail of `RE_CTCSS` after the 2-3 digit run `d`:
a dot, one digit, then whitespace and an optional `hz`. -/
def ctcssTail (d r : List Char) : Option (List Char) :=
  match r with
  | c :: c2 :: r2 =>
    if c = '.' ∧ isDigitB c2 = true ∧ toneSuffix r2 = true then some (d ++ [c, c2]) else none
  | _ => none

/-- `RE_CTCSS = ^(?:ctcss)?\s*(\d{2,3}\.\d)\s*(?:hz)?$` (case-insensitive),
returning the captured group `\d{2,3}\.\d` on a match.  The regex is
deterministic on its anchored input: the digit run is the maximal one (which
must have length 2 or 3), then the dot, one digit and the optional tail. -/
def ctcssMatch (l : List Char) : Option (List Char) :=
  if ((ctcssStrip l).takeWhile isDigitB).length < 2 ∨ 3 < ((ctcssStrip l).takeWhile isDigitB).length
  then none
  else ctcssTail ((ctcssStrip l).takeWhile isDigitB) ((ctcssStrip l).dropWhile isDigitB)

/-- The optional case-insensitive `dcs` prefix and the `\s*` after it in
`RE_DCS`. -/
def dcsStrip (l : List Char) : List Char :=
  (if ((l.take 3).map lowerChar) == ['d', 'c', 's'] then l.drop 3 else l).dropWhile isSpace

/-- `RE_DCS = ^(?:dcs)?\s*(\d{2,3})$` (case-insensitive), returning the
captured digit group on a match: the maximal digit run must have length 2 or
3 and must end the string. -/
def dcsMatch (l : List Char) : Option (List Char) :=
  if (((dcsStrip l).takeWhile isDigitB).length = 2 ∨ ((dcsStrip l).takeWhile isDigitB).length = 3)
      ∧ (dcsStrip l).dropWhile isDigitB = [] then
    some ((dcsStrip l).takeWhile isDigitB)
  else none

/-- Python `str.zfill(3)`. -/
def zfill3 (d : List Char) : List Char :=
  List.replicate (3 - d.length) '0' ++ d

/-- `Importer.parse_tq`: parse a user-defined CTCSS tone or DCS code.
Returns `none` exactly where the Python function falls through and returns
`None` (the not-found signal). -/
def parse_tq (s : String) : Option Nat :=
  if s = blank ∨ s = "none" ∨ s = "all" then some 0
  else if s = "search" then some 127
  else if s = "notone" ∨ s = "no tone" then some 240
  else
    let c1 :=
      match ctcssMatch s.data with
      | some t =>
        match idxFrom 0 CTCSS_TONES (String.mk (t.dropWhile (fun c => c == '0'))) with
        | some i => some (i + 64)
        | none => none
      | none => none
    match c1 with
    | some v => some v
    | none =>
      match dcsMatch s.data with
      | some d =>
        match idxFrom 0 DCS_CODES (String.mk (zfill3 d)) with
        | some i => some (i + 128)
        | none => none
      | none => none

/-- Check for the regex tail `\s*(?:mhz)?$` of `RE_FREQ` (case-insensitive). -/
def freqSuffix (l : List Char) : Bool :=
  (l.dropWhile isSpace) == [] || ((l.dropWhile isSpace).map lowerChar) == ['m', 'h', 'z']

/-- The fractional digits of the result of `Importer.parse_frequency`:
`(match.group(2) or "")[:5].lstrip(".").ljust(4, "0")` where group 2 is
`"." ++ f`. -/
def fracPad (f : List Char) : List Char :=
  let t := f.take 4
  t ++ List.replicate (4 - t.length) '0'

/-- The result string of `Importer.parse_frequency`:
`".".join((group1.lstrip("0"), fracPad))`. -/
def freqJoin (d f : List Char) : String :=
  String.mk ((d.dropWhile (fun c => c == '0')) ++ '.' :: fracPad f)

/-- The `(\.\d+)?\s*(?:mhz)?$` tail of `RE_FREQ` after the integer digit run
`d`: an optional fractional group (a dot followed by at least one digit),
then whitespace and an optional `mhz`. -/
def freqTail (d r : List Char) : Option String :=
  match r with
  | [] => some (freqJoin d [])
  | c :: r2 =>
    if c = '.' then
      if r2.takeWhile isDigitB = [] then none
      else if freqSuffix (r2.dropWhile isDigitB) = true then
        some (freqJoin d (r2.takeWhile isDigitB))
      else none
    else if freqSuffix (c :: r2) = true then some (freqJoin d []) else none

/-- `Importer.parse_frequency` built on
`RE_FREQ = ^(\d{1,4})(\s{0}\.\d+)?\s*(?:mhz)?$` (case-insensitive; `\s{0}`
matches the empty string).  The anchored regex is deterministic: the integer
group is the maximal leading digit run (1 to 4 digits), the optional
fractional group is `.` followed by the maximal digit run, and the rest must
be whitespace plus an optional `mhz`. -/
def parse_frequency (s : String) : Option String :=
  if (s.data.takeWhile isDigitB).length < 1 ∨ 4 < (s.data.takeWhile isDigitB).length then none
  else freqTail (s.data.takeWhile isDigitB) (s.data.dropWhile isDigitB)

/-- The `Channel` record constructed by `Importer.parse_row` (the fields of
`bc125csv.scanner.Channel` that the importer populates). -/
structure Channel where
  index : Int
  name : String
  frequency : String
  modulation : String
  tqcode : Nat
  delay : Int
  lockout : Bool
  priority : Bool
deriving DecidableEq

/-- Field access `data[i]` for the optional trailing columns: the Python code
guards every access beyond index 2 with `len(data) > i and data[i]`, so a
missing column and an empty column behave identically and are embedded as the
empty-string default. -/
def getF (data : List String) (i : Nat) : String :=
  data.getD i blank

/-- The index block of `parse_row`: `int(data[0])`, then
`index in range(1, 501)`. -/
def parseIndexField (s : String) : Option Int :=
  match parseInt s with
  | none => none
  | some i => if 1 ≤ i ∧ i ≤ 500 then some i else none

/-- The name whitelist `string.ascii_letters + string.digits` plus the
source's fixed punctuation set (bang, at, hash, dollar, percent, ampersand,
star, parentheses, hyphen, slash, angle brackets, dot, question mark,
space). -/
def validNameChar (c : Char) : Bool :=
  (97 ≤ c.toNat && c.toNat ≤ 122) || (65 ≤ c.toNat && c.toNat ≤ 90) || isDigitB c ||
    (['!', '@', '#', '$', '%', '&', '*', '(', ')', '-', '/', '<', '>', '.', '?', ' '].contains c)

/-- The name block of `parse_row`: every character must be whitelisted. -/
def parseNameField (s : String) : Option String :=
  if s.data.all validNameChar then some s else none

/-- The modulation block of `parse_row`: empty defaults to AUTO, otherwise
uppercase and check membership in `("FM", "AM", "AUTO", "NFM")`. -/
def parseModField (s : String) : Option String :=
  if s = blank then some ("AUTO")
  else
    let m := upperStr s
    if m = "FM" ∨ m = "AM" ∨ m = "AUTO" ∨ m = "NFM" then some m else none

/-- The CTCSS/DCS block of `parse_row`: empty defaults to 0 (none), otherwise
`parse_tq` must succeed. -/
def parseTqField (s : String) : Option Nat :=
  if s = blank then some 0 else parse_tq s

/-- The delay value set `(-10, -5, 0, 1, 2, 3, 4, 5)`. -/
def delaySet : List Int := [-10, -5, 0, 1, 2, 3, 4, 5]

/-- The delay block of `parse_row`: empty defaults to 2, otherwise
`int(data[5])` must parse and lie in `delaySet`. -/
def parseDelayField (s : String) : Option Int :=
  if s = blank then some 2
  else
    match parseInt s with
    | none => none
    | some k => if k ∈ delaySet then some k else none

/-- The truthy vocabulary `("1", "yes", "true")` of the lockout/priority
blocks. -/
def truthyList : List String := ["1", "yes", "true"]

/-- The falsy vocabulary of the lockout/priority blocks: `("0", "no",
"false")` plus the empty string (absent column defaults to false). -/
def falsyList : List String := ["0", "no", "false", ""]

/-- The lockout/priority block of `parse_row`: empty defaults to false,
otherwise lowercase and test against the falsy then the truthy vocabulary. -/
def parseBoolField (s : String) : Option Bool :=
  if s = blank then some false
  else
    let v := lowerStr s
    if v = "0" ∨ v = "no" ∨ v = "false" then some false
    else if v = "1" ∨ v = "yes" ∨ v = "true" then some true
    else none

/-- `Importer.parse_row`: parse a csv row to a channel object.  `none` embeds
a raised `ParseError`; the blocks run in source order and the first failing
block aborts the row. -/
def parse_row (data : List String) : Option Channel :=
  (parseIndexField (getF data 0)).bind fun index =>
  (parseNameField (getF data 1)).bind fun name =>
  (parse_frequency (getF data 2)).bind fun frequency =>
  (parseModField (getF data 3)).bind fun modulation =>
  (parseTqField (getF data 4)).bind fun tq =>
  (parseDelayField (getF data 5)).bind fun delay =>
  (parseBoolField (getF data 6)).bind fun lockout =>
  (parseBoolField (getF data 7)).bind fun priority =>
  some
    { index := index, name := name, frequency := frequency,
      modulation := modulation, tqcode := tq, delay := delay,
      lockout := lockout, priority := priority }

/-- The two kinds of row-level errors `Importer.read` reports: a `ParseError`
from `parse_row`, or a duplicate channel index. -/
inductive EKind where
  | field : EKind
  | dup : EKind
deriving DecidableEq

/-- The state accumulated by `Importer.read`: the insertion-ordered
`channels` dict and the log of reported errors (line number, kind); the
Python `errors` counter is the length of the log. -/
structure ImportState where
  channels : List (Int × Channel)
  errlog : List (Nat × EKind)
deriving DecidableEq

/-- Lookup in the insertion-ordered channels dict (`channel.index in
channels` / `channels[index]`). -/
def lookupCh : List (Int × Channel) → Int → Option Channel
  | [], _ => none
  | (k, c) :: rest, i => if k = i then some c else lookupCh rest i

/-- Python `str.strip` mapped over a row (`data = list(map(str.strip,
data))`). -/
def trimRow (data : List String) : List String :=
  data.map trimStr

/-- The trimmed first field of a row (the value the comment/placeholder test
inspects). -/
def firstTrim (data : List String) : String :=
  trimStr (data.headD blank)

/-- Head test over characters: does the text start with a hash? -/
def startsHashL : List Char → Bool
  | [] => false
  | c :: _ => c == '#'

/-- Python `str.startswith` with the hash comment marker on the inspected
field. -/
def startsHash (s : String) : Bool :=
  startsHashL s.data

/-- The body of `Importer.read`'s loop once a row is known to be a data row:
parse it, report a `ParseError` or a duplicate index with the row's 1-based
line number, or store the channel. -/
def dataStep (row : Nat) (data : List String) (st : ImportState) : ImportState :=
  match parse_row data with
  | none => ⟨st.channels, st.errlog ++ [(row + 1, EKind.field)]⟩
  | some ch =>
    if (lookupCh st.channels ch.index).isSome then
      ⟨st.channels, st.errlog ++ [(row + 1, EKind.dup)]⟩
    else
      ⟨st.channels ++ [(ch.index, ch)], st.errlog⟩

/-- One iteration of `Importer.read`'s loop, `row` being the 0-based
enumeration index: skip the header row, empty rows, rows with fewer than 3
fields and comment/placeholder rows, and process the rest as data rows. -/
def readStep (row : Nat) (data : List String) (st : ImportState) : ImportState :=
  if row = 0 then st
  else if data = [] then st
  else if data.length < 3 then st
  else if firstTrim data = blank then st
  else if startsHash (firstTrim data) = true then st
  else dataStep row (trimRow data) st

/-- The enumerated fold of `Importer.read` over the csv rows. -/
def processFrom : Nat → List (List String) → ImportState → ImportState
  | _, [], st => st
  | row, d :: ds, st => processFrom (row + 1) ds (readStep row d st)

/-- The initial state of `Importer.read` (`channels = {}`, `errors = 0`). -/
def initState : ImportState := ⟨[], []⟩

/-- `Importer.read`: fold over the rows, then return the channels dict only
when no error was reported (`if not errors: return channels`, an implicit
`None` otherwise). -/
def readCsv (rows : List (List String)) : Option (List (Int × Channel)) :=
  if (processFrom 0 rows initState).errlog.length = 0 then
    some (processFrom 0 rows initState).channels
  else none

/-- The events the import command sends to the scanner. -/
inductive Ev where
  | enter : Ev
  | setc : Int → Ev
  | delc : Int → Ev
  | exitp : Ev
deriving DecidableEq

/-- Python `range(start, stop)` over integers. -/
def intRange (start stop : Int) : List Int :=
  (List.range (stop - start).toNat).map (fun j => start + (j : Int))

/-- The per-bank index range of the import/export loops in `handler.main`:
`range(bank * 50 - 49, bank * 50 + 1)`. -/
def bankIndices (b : Nat) : List Int :=
  intRange ((b : Int) * 50 - 49) ((b : Int) * 50 + 1)

/-- The inner write loop of the import command: for each index, one
`set_channel` when the index is present in the imported map, otherwise one
`delete_channel`.  `failAt i` models the call issued at index `i` raising a
protocol fault; the straight-line Python has no handler, so the exception
aborts the remainder of the loop.  Returns the issued calls and whether the
loop completed. -/
def writeLoop (chans : List (Int × Channel)) (failAt : Int → Bool) :
    List Int → List Ev × Bool
  | [] => ([], true)
  | i :: rest =>
    let ev := if (lookupCh chans i).isSome then Ev.setc i else Ev.delc i
    if failAt i then ([ev], false)
    else
      let r := writeLoop chans failAt rest
      (ev :: r.1, r.2)

/-- The programming-mode section of the import command in `handler.main`:
`enter_programming()`, the per-bank write loop, then `exit_programming()` —
which, in the source, is only reached when the loop raised no fault. -/
def importSession (banks : List Nat) (chans : List (Int × Channel))
    (failAt : Int → Bool) : List Ev × Bool :=
  let idxs := (banks.map bankIndices).flatten
  let r := writeLoop chans failAt idxs
  (Ev.enter :: r.1 ++ (if r.2 then [Ev.exitp] else []), r.2)

/-! ### Generic list and character lemmas -/

/-- Splitting a `takeWhile`/`dropWhile` scan over a known decomposition. -/
theorem tw_app {p : Char → Bool} (d rest : List Char)
    (hd : ∀ c ∈ d, p c = true)
    (hr : ∀ c, rest.head? = some c → p c = false) :
    (d ++ rest).takeWhile p = d ∧ (d ++ rest).dropWhile p = rest := by
  induction d with
  | nil =>
    simp only [List.nil_append]
    cases rest with
    | nil => simp
    | cons c cs =>
      have hc := hr c rfl
      simp [List.takeWhile_cons, List.dropWhile_cons, hc]
  | cons a d ih =>
    have ha : p a = true := hd a (by simp)
    have ih2 := ih (fun c hc => hd c (by simp [hc]))
    simp [List.takeWhile_cons, List.dropWhile_cons, ha, ih2.1, ih2.2]

/-- `dropWhile` skips a block of characters that all satisfy the predicate. -/
theorem dw_app_all {p : Char → Bool} (w u : List Char) (hw : ∀ c ∈ w, p c = true) :
    (w ++ u).dropWhile p = u.dropWhile p := by
  induction w with
  | nil => simp
  | cons a w ih =>
    have ha : p a = true := hw a (by simp)
    simp [List.dropWhile_cons, ha, ih (fun c hc => hw c (by simp [hc]))]

/-- `dropWhile` is the identity when the head already fails the predicate. -/
theorem dw_id_of_head {p : Char → Bool} (l : List Char)
    (h : ∀ c, l.head? = some c → p c = false) : l.dropWhile p = l := by
  cases l with
  | nil => rfl
  | cons c cs => simp [List.dropWhile_cons, h c rfl]

/-- `takeWhile` is empty when no element satisfies the predicate. -/
theorem tw_nil_of_none {p : Char → Bool} (l : List Char) (h : ∀ c ∈ l, p c = false) :
    l.takeWhile p = [] := by
  cases l with
  | nil => rfl
  | cons c cs => simp [List.takeWhile_cons, h c (by simp)]

/-- The head of a `dropWhile` result fails the predicate. -/
theorem dw_head_false {p : Char → Bool} (l : List Char) :
    ∀ {c rest}, l.dropWhile p = c :: rest → p c = false := by
  induction l with
  | nil => intro c rest h; simp at h
  | cons a l ih =>
    intro c rest h
    rw [List.dropWhile_cons] at h
    split at h
    · exact ih h
    · next ha =>
      injection h with h1 _
      subst h1
      simpa using ha

/-- A character with code outside 48-57 is not an ASCII digit. -/
theorem isDigitB_false (c : Char) (h : ¬(48 ≤ c.toNat ∧ c.toNat ≤ 57)) :
    isDigitB c = false := by
  rw [Bool.eq_false_iff]
  intro ht
  simp only [isDigitB, Bool.and_eq_true, decide_eq_true_eq] at ht
  exact h ht

/-- A character with code at least 33 is not Python whitespace. -/
theorem isSpace_false (c : Char) (h : 33 ≤ c.toNat) : isSpace c = false := by
  rw [Bool.eq_false_iff]
  intro ht
  simp only [isSpace, Bool.or_eq_true, beq_iff_eq] at ht
  rcases ht with ((((rfl | rfl) | rfl) | rfl) | rfl) | rfl <;> exact absurd h (by decide)

/-- Whitespace characters are not digits. -/
theorem space_not_digit {c : Char} (h : isSpace c = true) : isDigitB c = false := by
  simp only [isSpace, Bool.or_eq_true, beq_iff_eq] at h
  rcases h with ((((rfl | rfl) | rfl) | rfl) | rfl) | rfl <;> decide

/-- A character whose lowercased form is a lowercase letter is neither a
digit nor whitespace. -/
theorem lower_low_facts {c t : Char} (ht : 97 ≤ t.toNat) (h : lowerChar c = t) :
    isDigitB c = false ∧ isSpace c = false := by
  unfold lowerChar at h
  split at h
  · next hin => exact ⟨isDigitB_false c (by omega), isSpace_false c (by omega)⟩
  · subst h
    exact ⟨isDigitB_false c (by omega), isSpace_false c (by omega)⟩

/-- ASCII digits are not the dot, not whitespace, and fixed by lowercasing. -/
theorem digit_facts {c : Char} (h : isDigitB c = true) :
    ¬c = '.' ∧ isSpace c = false ∧ lowerChar c = c := by
  simp only [isDigitB, Bool.and_eq_true, decide_eq_true_eq] at h
  refine ⟨?_, isSpace_false c (by omega), ?_⟩
  · intro he
    subst he
    exact absurd h (by decide)
  · unfold lowerChar
    rw [if_neg (by omega)]

/-! ### Lemmas about the importer state and the write loop -/

/-- Appending one entry to the channels dict: lookup of a key absent before
sees only the appended entry. -/
theorem lookupCh_append_none {l : List (Int × Channel)} {i : Int} (k : Int) (c : Channel)
    (h : lookupCh l i = none) :
    lookupCh (l ++ [(k, c)]) i = if k = i then some c else none := by
  induction l with
  | nil => rfl
  | cons p rest ih =>
    obtain ⟨k0, c0⟩ := p
    rw [List.cons_append]
    simp only [lookupCh] at h ⊢
    by_cases hk : k0 = i
    · rw [if_pos hk] at h
      exact absurd h (by simp)
    · rw [if_neg hk] at h ⊢
      exact ih h

/-- Appending one entry to the channels dict preserves present keys. -/
theorem lookupCh_append_some {l : List (Int × Channel)} {i : Int} {c0 : Channel} (k : Int)
    (c : Channel) (h : lookupCh l i = some c0) :
    lookupCh (l ++ [(k, c)]) i = some c0 := by
  induction l with
  | nil => exact absurd h (by simp [lookupCh])
  | cons p rest ih =>
    obtain ⟨k1, c1⟩ := p
    rw [List.cons_append]
    simp only [lookupCh] at h ⊢
    by_cases hk : k1 = i
    · rwa [if_pos hk] at h ⊢
    · rw [if_neg hk] at h ⊢
      exact ih h

/-- A successful lookup after appending one entry comes from the old dict or
from the appended entry. -/
theorem lookupCh_append_cases {l : List (Int × Channel)} {k0 : Int} {c0 : Channel} {i : Int}
    {c : Channel} (h : lookupCh (l ++ [(k0, c0)]) i = some c) :
    lookupCh l i = some c ∨ (k0 = i ∧ c = c0) := by
  induction l with
  | nil =>
    rw [List.nil_append] at h
    simp only [lookupCh] at h
    by_cases hk : k0 = i
    · rw [if_pos hk] at h
      right
      exact ⟨hk, by injection h with h1; exact h1.symm⟩
    · rw [if_neg hk] at h
      exact absurd h (by simp)
  | cons p rest ih =>
    obtain ⟨k1, c1⟩ := p
    rw [List.cons_append] at h
    simp only [lookupCh] at h ⊢
    by_cases hk : k1 = i
    · rw [if_pos hk] at h ⊢
      exact Or.inl h
    · rw [if_neg hk] at h ⊢
      exact ih h

/-- A parsed integer field is non-empty and does not start with a hash. -/
theorem parseInt_shape {s : String} {n : Int} (h : parseInt s = some n) :
    ¬s = blank ∧ startsHash s = false := by
  unfold parseInt at h
  unfold startsHash
  cases hd : s.data with
  | nil =>
    rw [hd] at h
    exact absurd h (by simp [parseIntL])
  | cons c cs =>
    rw [hd] at h
    simp only [parseIntL] at h
    simp only [startsHashL]
    constructor
    · intro hb
      rw [hb] at hd
      exact absurd hd (by simp [blank])
    · by_cases h1 : c = '+'
      · subst h1; rfl
      · by_cases h2 : c = '-'
        · subst h2; rfl
        · rw [if_neg h1, if_neg h2] at h
          split at h
          · next hall =>
            have hc : isDigitB c = true := by
              simp only [List.all_cons, Bool.and_eq_true] at hall
              exact hall.1
            rw [Bool.eq_false_iff]
            intro hb
            have hce : c = '#' := by simpa using hb
            subst hce
            exact absurd hc (by decide)
          · exact absurd h (by simp)

/-- A skipped row (header, blank, short, comment or placeholder) leaves
the import state unchanged. -/
theorem readStep_skip {row : Nat} {data : List String} (st : ImportState)
    (h : row = 0 ∨ data = [] ∨ data.length < 3 ∨ firstTrim data = blank ∨
      startsHash (firstTrim data) = true) :
    readStep row data st = st := by
  rcases h with h | h | h | h | h <;> simp [readStep, h]

/-- A non-skipped row is handled by the data-row branch on its trimmed
fields. -/
theorem readStep_data {row : Nat} {data : List String} (st : ImportState)
    (h1 : ¬row = 0) (h2 : ¬data = []) (h3 : ¬data.length < 3)
    (h4 : ¬firstTrim data = blank) (h5 : ¬startsHash (firstTrim data) = true) :
    readStep row data st = dataStep row (trimRow data) st := by
  unfold readStep
  rw [if_neg h1, if_neg h2, if_neg h3, if_neg h4, if_neg h5]

/-- Processing a data row always changes the import state: it logs an error
or stores a channel. -/
theorem dataStep_ne (row : Nat) (d : List String) (st : ImportState) :
    dataStep row d st ≠ st := by
  obtain ⟨chs, el⟩ := st
  unfold dataStep
  cases hp : parse_row d with
  | none =>
    dsimp only
    intro h
    simp only [ImportState.mk.injEq] at h
    have h2 := congrArg List.length h.2
    simp only [List.length_append, List.length_cons, List.length_nil] at h2
    omega
  | some ch =>
    dsimp only
    cases hi : (lookupCh chs ch.index).isSome with
    | true =>
      rw [if_pos rfl]
      intro h
      simp only [ImportState.mk.injEq] at h
      have h2 := congrArg List.length h.2
      simp only [List.length_append, List.length_cons, List.length_nil] at h2
      omega
    | false =>
      rw [if_neg Bool.false_ne_true]
      intro h
      simp only [ImportState.mk.injEq] at h
      have h2 := congrArg List.length h.1
      simp only [List.length_append, List.length_cons, List.length_nil] at h2
      omega

/-- The write loop never issues the mode-exit command. -/
theorem writeLoop_count_exitp (chans : List (Int × Channel)) (failAt : Int → Bool) :
    ∀ idxs : List Int, ((writeLoop chans failAt idxs).1.count Ev.exitp) = 0 := by
  intro idxs
  induction idxs with
  | nil => rfl
  | cons i rest ih =>
    cases hl : (lookupCh chans i).isSome <;> cases hf : failAt i <;>
      simp [writeLoop, hl, hf, List.count_cons, ih]

/-- Without faults the write loop visits every index and completes. -/
theorem writeLoop_ok (chans : List (Int × Channel)) :
    ∀ idxs : List Int, writeLoop chans (fun _ => false) idxs =
      (idxs.map (fun i => if (lookupCh chans i).isSome then Ev.setc i else Ev.delc i), true) := by
  intro idxs
  induction idxs with
  | nil => rfl
  | cons i rest ih => simp [writeLoop, ih]

/-! ### The end-to-end sample of the spec -/

/-- The two-row CSV sample of the spec (header plus channels 1 and 2). -/
def sampleRows : List (List String) :=
  [["Channel", "Name", "Frequency", "Modulation", "CTCSS/DCS", "Delay", "Lockout", "Priority"],
   ["1", "PMR Channel 1", "446.0062", "FM", "none", "2", "no", "no"],
   ["2", "PMR Channel 2", "446.0187", "FM", "no tone", "2", "no", "no"]]

/-- The channel map produced by importing `sampleRows`. -/
def sampleChans : List (Int × Channel) :=
  [(1, ⟨1, "PMR Channel 1", "446.0062", "FM", 0, 2, false, false⟩),
   (2, ⟨2, "PMR Channel 2", "446.0187", "FM", 240, 2, false, false⟩)]

/-- C1: `Importer.read` returns the accumulated index-to-Channel map exactly
when the error counter is zero after all rows are processed; with at least
one error it returns the validation-failure signal (`none`), never a partial
map, and any returned map is the fully accumulated one. -/
theorem c1_read_success_iff_no_errors : ∀ rows : List (List String),
    ((readCsv rows).isSome = true ↔ (processFrom 0 rows initState).errlog = [])
    ∧ (∀ m, readCsv rows = some m → m = (processFrom 0 rows initState).channels) := by
  intro rows
  constructor
  · unfold readCsv
    by_cases h : (processFrom 0 rows initState).errlog.length = 0
    · rw [if_pos h]
      rw [List.length_eq_zero] at h
      simp [h]
    · rw [if_neg h]
      simp only [Option.isSome_none, Bool.false_eq_true, false_iff]
      intro he
      exact h (by simp [he])
  · intro m hm
    unfold readCsv at hm
    by_cases h : (processFrom 0 rows initState).errlog.length = 0
    · rw [if_pos h] at hm
      injection hm with h1
      exact h1.symm
    · rw [if_neg h] at hm
      exact absurd hm (by simp)

/-- Witness for C1 at the concrete spec sample: the error-free sample import
returns exactly the accumulated map. -/
theorem c1_read_success_iff_no_errors_witness :
    sampleChans = (processFrom 0 sampleRows initState).channels :=
  (c1_read_success_iff_no_errors sampleRows).2 sampleChans (by decide)

/-- C4 (amended): during an import, `exit_programming` is issued exactly once
when the per-bank write loop completes without a protocol fault, and is not
issued at all when a `set_channel`/`delete_channel` call faults partway — the
straight-line source has no cleanup handler, so the fault propagates without
an `exit_programming` attempt. -/
theorem c4_exit_only_after_fault_free_loop :
    ∀ (banks : List Nat) (chans : List (Int × Channel)) (failAt : Int → Bool),
      ((importSession banks chans failAt).1.count Ev.exitp) =
        (if (importSession banks chans failAt).2 = true then 1 else 0) := by
  intro banks chans failAt
  cases hr : (writeLoop chans failAt ((banks.map bankIndices).flatten)).2 <;>
    simp [importSession, hr, List.count_cons, List.count_append, writeLoop_count_exitp]

/-- Counterexample for C4 as stated: a protocol fault at the very first
delete call of bank 1 aborts the import with no `exit_programming` attempt
anywhere in the session trace. -/
theorem c4_counterexample :
    (importSession [1] [] (fun i => i == 1)).2 = false
    ∧ ¬Ev.exitp ∈ (importSession [1] [] (fun i => i == 1)).1
    ∧ (importSession [1] [] (fun i => i == 1)).1 = [Ev.enter, Ev.delc 1] := by
  decide

/-- C9: the import loop over a selected bank `b` visits exactly indices
`50*(b-1)+1` through `50*b` in ascending order, issuing `set_channel` for
indices present in the imported map and `delete_channel` for the rest; in
particular the two-row CSV sample imported into bank 1 yields one
`set_channel` for each of indices 1 and 2 and one `delete_channel` for each
of indices 3 through 50. -/
theorem c9_bank_loop_trace :
    (∀ b : Nat, bankIndices b = (List.range 50).map (fun j => ((b : Int) - 1) * 50 + 1 + (j : Int)))
    ∧ (∀ (b : Nat) (chans : List (Int × Channel)),
        (importSession [b] chans (fun _ => false)).1 =
          Ev.enter ::
            (((bankIndices b).map
              (fun i => if (lookupCh chans i).isSome then Ev.setc i else Ev.delc i)) ++ [Ev.exitp]))
    ∧ readCsv sampleRows = some sampleChans
    ∧ (importSession [1] sampleChans (fun _ => false)).1 =
        Ev.enter :: Ev.setc 1 :: Ev.setc 2 ::
          (((List.range 48).map (fun j => Ev.delc ((j : Int) + 3))) ++ [Ev.exitp]) := by
  refine ⟨?_, ?_, ?_, ?_⟩
  · intro b
    unfold bankIndices intRange
    have h50 : (((b : Int) * 50 + 1) - ((b : Int) * 50 - 49)).toNat = 50 := by
      have he : ((b : Int) * 50 + 1) - ((b : Int) * 50 - 49) = 50 := by ring
      rw [he]
      rfl
    rw [h50]
    apply List.map_congr_left
    intro j _
    ring
  · intro b chans
    simp [importSession, writeLoop_ok]
  · decide
  · decide

/-- C7: row classification of `Importer.read`, in source order — the first
row is always skipped, as are blank rows, rows with fewer than 3 fields and
rows whose first trimmed field is empty or starts with a hash; these and only
these leave the import state unchanged, and every remaining row is parsed as
a data row (on its trimmed fields). -/
theorem c7_row_classification :
    ∀ (row : Nat) (data : List String) (st : ImportState),
      (readStep row data st = st ↔
        (row = 0 ∨ data = [] ∨ data.length < 3 ∨ firstTrim data = blank ∨
          startsHash (firstTrim data) = true))
      ∧ (¬(row = 0 ∨ data = [] ∨ data.length < 3 ∨ firstTrim data = blank ∨
            startsHash (firstTrim data) = true) →
          readStep row data st = dataStep row (trimRow data) st) := by
  intro row data st
  constructor
  · constructor
    · intro he
      by_contra hn
      simp only [not_or] at hn
      obtain ⟨h1, h2, h3, h4, h5⟩ := hn
      have hd : readStep row data st = dataStep row (trimRow data) st :=
        readStep_data st h1 h2 h3 h4 h5
      exact dataStep_ne row (trimRow data) st (hd.symm.trans he)
    · exact readStep_skip st
  · intro hn
    simp only [not_or] at hn
    obtain ⟨h1, h2, h3, h4, h5⟩ := hn
    exact readStep_data st h1 h2 h3 h4 h5

/-- Witness for C7: the header row of the sample is skipped, and its first
data row is processed by the data-row branch. -/
theorem c7_row_classification_witness :
    readStep 0 (["1", "A", "446.0"]) initState = initState
    ∧ readStep 1 (["1", "A", "446.0"]) initState =
        dataStep 1 (trimRow (["1", "A", "446.0"])) initState :=
  ⟨(c7_row_classification 0 (["1", "A", "446.0"]) initState).1.2 (by decide),
   (c7_row_classification 1 (["1", "A", "446.0"]) initState).2 (by decide)⟩

/-- The first field a data row presents to `parse_row` is its trimmed first
raw field. -/
theorem getF_trimRow_zero (d : List String) : getF (trimRow d) 0 = firstTrim d := by
  cases d with
  | nil => rfl
  | cons x xs => rfl

/-- A row whose trimmed fields parse successfully is a data row: its first
trimmed field is non-empty, does not start with a hash. -/
theorem parse_row_data_row {d : List String} {ch : Channel}
    (h : parse_row (trimRow d) = some ch) :
    ¬firstTrim d = blank ∧ ¬startsHash (firstTrim d) = true := by
  have hidx : ∃ n, parseIndexField (getF (trimRow d) 0) = some n := by
    cases hx : parseIndexField (getF (trimRow d) 0) with
    | none =>
      unfold parse_row at h
      rw [hx] at h
      simp at h
    | some n => exact ⟨n, rfl⟩
  obtain ⟨n, hn⟩ := hidx
  have hp : ∃ m, parseInt (getF (trimRow d) 0) = some m := by
    unfold parseIndexField at hn
    cases hy : parseInt (getF (trimRow d) 0) with
    | none =>
      rw [hy] at hn
      exact absurd hn (by simp)
    | some m => exact ⟨m, rfl⟩
  obtain ⟨m, hm⟩ := hp
  rw [getF_trimRow_zero] at hm
  have hs := parseInt_shape hm
  exact ⟨hs.1, by simp [hs.2]⟩

/-- C6: two data rows with the same channel index and otherwise-valid fields
produce exactly one reported error — a duplicate-index error attributed to
the later row — and the import is rejected as a whole; moreover in any
successful import every index identifies exactly the channel stored under
it. -/
theorem c6_duplicate_index :
    (∀ (hdr d1 d2 : List String) (ch1 ch2 : Channel),
        3 ≤ d1.length → 3 ≤ d2.length →
        parse_row (trimRow d1) = some ch1 → parse_row (trimRow d2) = some ch2 →
        ch2.index = ch1.index →
        (processFrom 0 [hdr, d1, d2] initState).errlog = [(3, EKind.dup)]
        ∧ readCsv [hdr, d1, d2] = none)
    ∧ (∀ rows m k c, readCsv rows = some m → lookupCh m k = some c → c.index = k) := by
  constructor
  · intro hdr d1 d2 ch1 ch2 hl1 hl2 hp1 hp2 heq
    have hne1 : ¬d1 = [] := by
      intro hh
      rw [hh] at hl1
      simp at hl1
    have hne2 : ¬d2 = [] := by
      intro hh
      rw [hh] at hl2
      simp at hl2
    have hrow1 := parse_row_data_row hp1
    have hrow2 := parse_row_data_row hp2
    have e0 : readStep 0 hdr initState = initState := readStep_skip initState (Or.inl rfl)
    have e1 : readStep 1 d1 initState = dataStep 1 (trimRow d1) initState :=
      readStep_data initState (by omega) hne1 (by omega) hrow1.1 hrow1.2
    have e1v : dataStep 1 (trimRow d1) initState = ⟨[(ch1.index, ch1)], []⟩ := by
      simp [dataStep, hp1, initState, lookupCh]
    have e2 : readStep 2 d2 ⟨[(ch1.index, ch1)], []⟩ =
        dataStep 2 (trimRow d2) ⟨[(ch1.index, ch1)], []⟩ :=
      readStep_data _ (by omega) hne2 (by omega) hrow2.1 hrow2.2
    have e2v : dataStep 2 (trimRow d2) ⟨[(ch1.index, ch1)], []⟩ =
        ⟨[(ch1.index, ch1)], [(3, EKind.dup)]⟩ := by
      simp [dataStep, hp2, lookupCh, heq]
    have hall : processFrom 0 [hdr, d1, d2] initState = ⟨[(ch1.index, ch1)], [(3, EKind.dup)]⟩ := by
      simp only [processFrom]
      rw [e0, e1, e1v, e2, e2v]
    constructor
    · rw [hall]
    · unfold readCsv
      rw [hall]
      simp
  · intro rows m k c hread hlook
    have hinv : ∀ (rs : List (List String)) (row : Nat) (st : ImportState),
        (∀ k2 c2, lookupCh st.channels k2 = some c2 → c2.index = k2) →
        (∀ k2 c2, lookupCh (processFrom row rs st).channels k2 = some c2 → c2.index = k2) := by
      intro rs
      induction rs with
      | nil =>
        intro row st h
        simpa [processFrom] using h
      | cons d ds ih =>
        intro row st h
        simp only [processFrom]
        apply ih
        by_cases hs : row = 0 ∨ d = [] ∨ d.length < 3 ∨ firstTrim d = blank ∨
            startsHash (firstTrim d) = true
        · rw [readStep_skip st hs]
          exact h
        · simp only [not_or] at hs
          obtain ⟨h1, h2, h3, h4, h5⟩ := hs
          rw [readStep_data st h1 h2 h3 h4 h5]
          unfold dataStep
          cases hp : parse_row (trimRow d) with
          | none =>
            dsimp only
            exact h
          | some ch =>
            dsimp only
            cases hi : (lookupCh st.channels ch.index).isSome with
            | true =>
              rw [if_pos rfl]
              exact h
            | false =>
              rw [if_neg Bool.false_ne_true]
              intro k2 c2 hlk
              dsimp only at hlk
              rcases lookupCh_append_cases hlk with hold | ⟨hk, hc⟩
              · exact h k2 c2 hold
              · rw [hc]
                exact hk
    have hm : m = (processFrom 0 rows initState).channels := by
      unfold readCsv at hread
      by_cases hz : (processFrom 0 rows initState).errlog.length = 0
      · rw [if_pos hz] at hread
        injection hread with hh
        exact hh.symm
      · rw [if_neg hz] at hread
        exact absurd hread (by simp)
    rw [hm] at hlook
    refine hinv rows 0 initState ?_ k c hlook
    intro k2 c2 hc
    exact absurd hc (by simp [initState, lookupCh])

/-- The duplicate-index witness rows: channel 1 appears twice ("1" and "01"
parse to the same index). -/
def dupHdr : List String := ["Channel", "Name", "Frequency"]

/-- First data row of the duplicate-index witness. -/
def dupRow1 : List String := ["1", "A", "446.0062"]

/-- Second data row of the duplicate-index witness (same index, spelled
"01"). -/
def dupRow2 : List String := ["01", "B", "123.4"]

/-- Channel parsed from `dupRow1`. -/
def dupCh1 : Channel := ⟨1, "A", "446.0062", "AUTO", 0, 2, false, false⟩

/-- Channel parsed from `dupRow2`. -/
def dupCh2 : Channel := ⟨1, "B", "123.4000", "AUTO", 0, 2, false, false⟩

/-- Witness for C6: the concrete duplicate-index input yields exactly one
duplicate error on line 3 and a rejected import, and the sample import's map
is index-consistent at key 1. -/
theorem c6_duplicate_index_witness :
    ((processFrom 0 [dupHdr, dupRow1, dupRow2] initState).errlog = [(3, EKind.dup)]
      ∧ readCsv [dupHdr, dupRow1, dupRow2] = none)
    ∧ (⟨1, "PMR Channel 1", "446.0062", "FM", 0, 2, false, false⟩ : Channel).index = 1 :=
  ⟨c6_duplicate_index.1 dupHdr dupRow1 dupRow2 dupCh1 dupCh2 (by decide) (by decide)
      (by decide) (by decide) (by decide),
   c6_duplicate_index.2 sampleRows sampleChans 1
      (⟨1, "PMR Channel 1", "446.0062", "FM", 0, 2, false, false⟩ : Channel)
      (by decide) (by decide)⟩

/-- The row-skipping condition of `Importer.read`, as one predicate: header
row, blank row, fewer than 3 fields, or empty/comment first trimmed field. -/
def skipRowP (row : Nat) (data : List String) : Prop :=
  row = 0 ∨ data = [] ∨ data.length < 3 ∨ firstTrim data = blank ∨
    startsHash (firstTrim data) = true

instance : ∀ row data, Decidable (skipRowP row data) := fun row data => by
  unfold skipRowP
  infer_instance

/-- The reported field-level errors, one `(line number, kind)` entry per data
row whose `parse_row` raises, in input order. -/
def failList : Nat → List (List String) → List (Nat × EKind)
  | _, [] => []
  | row, d :: ds =>
    (if skipRowP row d then []
     else if parse_row (trimRow d) = none then [(row + 1, EKind.field)] else [])
      ++ failList (row + 1) ds

/-- The indices of the successfully parsed data rows, in input order. -/
def succIdxs : Nat → List (List String) → List Int
  | _, [] => []
  | row, d :: ds =>
    (if skipRowP row d then []
     else
       match parse_row (trimRow d) with
       | some ch => [ch.index]
       | none => []) ++ succIdxs (row + 1) ds

/-- The error log of `Importer.read`'s fold: when the successfully parsed
indices are fresh and duplicate-free, it is exactly the field-error list —
one entry per failing data row, with no early termination. -/
theorem processFrom_errlog :
    ∀ (rows : List (List String)) (row : Nat) (st : ImportState),
      (succIdxs row rows).Nodup →
      (∀ i ∈ succIdxs row rows, lookupCh st.channels i = none) →
      (processFrom row rows st).errlog = st.errlog ++ failList row rows := by
  intro rows
  induction rows with
  | nil =>
    intro row st h1 h2
    simp [processFrom, failList]
  | cons d ds ih =>
    intro row st hnd hfresh
    have hsucc : succIdxs row (d :: ds) =
        (if skipRowP row d then []
         else
           match parse_row (trimRow d) with
           | some ch => [ch.index]
           | none => []) ++ succIdxs (row + 1) ds := rfl
    rw [show processFrom row (d :: ds) st = processFrom (row + 1) ds (readStep row d st) from rfl]
    rw [show failList row (d :: ds) =
        (if skipRowP row d then []
         else if parse_row (trimRow d) = none then [(row + 1, EKind.field)] else [])
          ++ failList (row + 1) ds from rfl]
    by_cases hs : skipRowP row d
    · rw [if_pos hs]
      rw [readStep_skip st hs]
      rw [hsucc, if_pos hs, List.nil_append] at hnd hfresh
      rw [List.nil_append]
      exact ih (row + 1) st hnd hfresh
    · have hs2 := hs
      unfold skipRowP at hs2
      simp only [not_or] at hs2
      obtain ⟨h1, h2, h3, h4, h5⟩ := hs2
      rw [if_neg hs]
      rw [readStep_data st h1 h2 h3 h4 h5]
      cases hp : parse_row (trimRow d) with
      | none =>
        rw [if_pos rfl]
        have hmm : (match parse_row (trimRow d) with
            | some ch => [ch.index]
            | none => ([] : List Int)) = [] := by rw [hp]
        rw [hsucc, if_neg hs, hmm, List.nil_append] at hnd hfresh
        have hds : dataStep row (trimRow d) st =
            ⟨st.channels, st.errlog ++ [(row + 1, EKind.field)]⟩ := by
          simp [dataStep, hp]
        rw [hds]
        have happ := ih (row + 1) ⟨st.channels, st.errlog ++ [(row + 1, EKind.field)]⟩ hnd hfresh
        rw [happ]
        simp [List.append_assoc]
      | some ch =>
        rw [if_neg (by simp)]
        have hmm : (match parse_row (trimRow d) with
            | some ch => [ch.index]
            | none => ([] : List Int)) = [ch.index] := by rw [hp]
        have hsuccs : succIdxs row (d :: ds) = ch.index :: succIdxs (row + 1) ds := by
          rw [hsucc, if_neg hs, hmm]
          rfl
        rw [hsuccs] at hnd hfresh
        have hfreshHead : lookupCh st.channels ch.index = none := hfresh ch.index (by simp)
        have hds : dataStep row (trimRow d) st =
            ⟨st.channels ++ [(ch.index, ch)], st.errlog⟩ := by
          simp [dataStep, hp, hfreshHead]
        rw [hds]
        rw [List.nil_append]
        apply ih (row + 1) ⟨st.channels ++ [(ch.index, ch)], st.errlog⟩ (List.nodup_cons.mp hnd).2
        intro i hi
        have hne : ¬ch.index = i := by
          intro hh
          exact (List.nodup_cons.mp hnd).1 (hh ▸ hi)
        have hlift := lookupCh_append_none ch.index ch (hfresh i (by simp [hi]))
        show lookupCh (st.channels ++ [(ch.index, ch)]) i = none
        rw [hlift, if_neg hne]

/-- C2: with N data rows of which exactly K fail field-level validation (and
no duplicate indices among the valid rows), `Importer.read` processes all
rows without early termination, reports exactly the K field errors — one per
offending row, tagged with the row's 1-based line number — and returns no
channel map when K is positive. -/
theorem c2_all_errors_reported :
    ∀ rows : List (List String), (succIdxs 0 rows).Nodup →
      ((processFrom 0 rows initState).errlog = failList 0 rows
       ∧ (¬failList 0 rows = [] → readCsv rows = none)) := by
  intro rows hnd
  have h1 : (processFrom 0 rows initState).errlog = failList 0 rows := by
    have hfresh : ∀ i ∈ succIdxs 0 rows, lookupCh initState.channels i = none := by
      intro i hi
      simp [initState, lookupCh]
    have := processFrom_errlog rows 0 initState hnd hfresh
    simpa [initState] using this
  refine ⟨h1, ?_⟩
  intro hne
  have hlen : ¬(processFrom 0 rows initState).errlog.length = 0 := by
    rw [h1, List.length_eq_zero]
    exact hne
  unfold readCsv
  rw [if_neg hlen]

/-- Four CSV records: a header, a good row and two field-failing rows (bad
frequency, bad modulation). -/
def c2rows : List (List String) :=
  [["h", "h", "h"], ["1", "A", "446.0"], ["2", "B", "bad"], ["3", "C", "123.4", "XX"]]

/-- Witness for C2 on `c2rows`: both failing rows are reported, with their
1-based line numbers 3 and 4, and the import returns no map. -/
theorem c2_all_errors_reported_witness :
    (succIdxs 0 c2rows).Nodup
    ∧ failList 0 c2rows = [(3, EKind.field), (4, EKind.field)]
    ∧ (processFrom 0 c2rows initState).errlog = failList 0 c2rows
    ∧ readCsv c2rows = none :=
  ⟨by decide, by decide,
   (c2_all_errors_reported c2rows (by decide)).1,
   (c2_all_errors_reported c2rows (by decide)).2 (by decide)⟩

/-- The characters surviving the CTCSS prefix strip are characters of the
input. -/
theorem ctcssStrip_subset (l : List Char) : ctcssStrip l ⊆ l := by
  unfold ctcssStrip
  intro c hc
  have hc2 := List.dropWhile_subset isSpace hc
  split at hc2
  · exact List.drop_subset _ _ hc2
  · exact hc2

/-- The characters surviving the DCS prefix strip are characters of the
input. -/
theorem dcsStrip_subset (l : List Char) : dcsStrip l ⊆ l := by
  unfold dcsStrip
  intro c hc
  have hc2 := List.dropWhile_subset isSpace hc
  split at hc2
  · exact List.drop_subset _ _ hc2
  · exact hc2

/-- A digit-free input cannot match the CTCSS regex. -/
theorem ctcssMatch_none (l : List Char) (h : ∀ c ∈ l, isDigitB c = false) :
    ctcssMatch l = none := by
  have hstrip : ∀ c ∈ ctcssStrip l, isDigitB c = false :=
    fun c hc => h c (ctcssStrip_subset l hc)
  unfold ctcssMatch
  rw [tw_nil_of_none _ hstrip]
  simp

/-- A digit-free input cannot match the DCS regex. -/
theorem dcsMatch_none (l : List Char) (h : ∀ c ∈ l, isDigitB c = false) :
    dcsMatch l = none := by
  have hstrip : ∀ c ∈ dcsStrip l, isDigitB c = false :=
    fun c hc => h c (dcsStrip_subset l hc)
  unfold dcsMatch
  rw [tw_nil_of_none _ hstrip]
  simp

/-- C10: `parse_tq` accepts the exact lowercase input "all" as a synonym for
"none"/empty (code 0), and every keyword form is matched only in its exact
lowercase spelling: any digit-free input outside the exact lowercase keyword
vocabulary — in particular any other casing of a keyword — is rejected. -/
theorem c10_all_keyword_lowercase_only :
    parse_tq ("all") = some 0
    ∧ (∀ s : String,
        ¬s ∈ (["", "none", "all", "search", "notone", "no tone"] : List String) →
        (∀ c ∈ s.data, isDigitB c = false) → parse_tq s = none) := by
  constructor
  · decide
  · intro s hmem hnod
    have hmem' : ¬(s = "" ∨ s = "none" ∨ s = "all" ∨ s = "search" ∨ s = "notone" ∨
        s = "no tone") := by simpa using hmem
    simp only [not_or] at hmem'
    obtain ⟨m1, m2, m3, m4, m5, m6⟩ := hmem'
    unfold parse_tq
    rw [if_neg (by
      rintro (h | h | h)
      · exact m1 (by simpa [blank] using h)
      · exact m2 h
      · exact m3 h)]
    rw [if_neg m4]
    rw [if_neg (by
      rintro (h | h)
      · exact m5 h
      · exact m6 h)]
    simp [ctcssMatch_none s.data hnod, dcsMatch_none s.data hnod]

/-- Witness for C10: the mixed-case spelling "No Tone" is outside the exact
lowercase vocabulary and is rejected. -/
theorem c10_all_keyword_lowercase_only_witness :
    ¬("No Tone" : String) ∈ (["", "none", "all", "search", "notone", "no tone"] : List String)
    ∧ parse_tq ("No Tone") = none :=
  ⟨by decide, c10_all_keyword_lowercase_only.2 ("No Tone") (by decide) (by decide)⟩

/-- Counterexample for C5 as stated: the tone vocabulary is not
case-insensitive — the uppercase spelling of the keyword "none" is rejected
while the lowercase one parses. -/
theorem c5_counterexample :
    parse_tq ("NONE") = none ∧ parse_tq ("none") = some 0 := by
  decide

/-- C5 (amended): tone parsing is case-insensitive and whitespace-tolerant
for the CTCSS and DCS regex forms and accepts the bare numeric forms "026"
and "26"; the keyword forms are matched only in exact lowercase; text
matching no table entry yields the not-found result `none` (not a raised
fault), and an absent/empty tone field defaults to code 0. -/
theorem c5_tone_vocabulary_amended :
    parse_tq (blank) = some 0
    ∧ parse_tq ("none") = some 0
    ∧ parse_tq ("search") = some 127
    ∧ parse_tq ("no tone") = some 240
    ∧ parse_tq ("notone") = some 240
    ∧ parse_tq ("114.8 Hz") = parse_tq ("ctcss 114.8")
    ∧ parse_tq ("CTCSS 114.8 hz") = parse_tq ("114.8")
    ∧ (parse_tq ("114.8 Hz")).isSome = true
    ∧ parse_tq ("DCS 026") = parse_tq ("dcs026")
    ∧ parse_tq ("026") = parse_tq ("26")
    ∧ parse_tq ("DCS 026") = parse_tq ("26")
    ∧ (parse_tq ("DCS 026")).isSome = true
    ∧ parse_tq ("invalid tone") = none
    ∧ parseTqField (blank) = some 0 := by
  decide

/-- A lowercased string is empty only for the empty string. -/
theorem lowerStr_eq_blank {s : String} (h : lowerStr s = blank) : s = blank := by
  obtain ⟨l⟩ := s
  unfold lowerStr at h
  have h2 : l.map lowerChar = [] := congrArg String.data h
  have h3 : l = [] := by simpa using h2
  rw [h3]
  decide

/-- Fields beyond index 7 are never read. -/
theorem getF_take (d : List String) (i : Nat) (h : i < 8) : getF (d.take 8) i = getF d i := by
  unfold getF
  rw [List.getD_eq_getElem?_getD, List.getD_eq_getElem?_getD, List.getElem?_take_of_lt h]

/-- C8 (amended): fields are parsed in column order with columns beyond the
8th ignored; the optional columns default to AUTO / tone 0 / delay 2 /
lockout false / priority false when absent or empty; lockout and priority
accept exactly the truthy set {"1","yes","true"} and falsy set
{"0","no","false",""} after lowercasing the field; delay accepts exactly the
integer set {-10,-5,0,1,2,3,4,5}. -/
theorem c8_columns_defaults_amended :
    (∀ d : List String, parse_row d = parse_row (d.take 8))
    ∧ (∀ (d : List String) (ch : Channel), parse_row d = some ch →
        (getF d 3 = blank → ch.modulation = "AUTO")
        ∧ (getF d 4 = blank → ch.tqcode = 0)
        ∧ (getF d 5 = blank → ch.delay = 2)
        ∧ (getF d 6 = blank → ch.lockout = false)
        ∧ (getF d 7 = blank → ch.priority = false))
    ∧ (∀ (s : String) (b : Bool), parseBoolField s = some b ↔
        ((b = false ∧ lowerStr s ∈ falsyList) ∨ (b = true ∧ lowerStr s ∈ truthyList)))
    ∧ (∀ (s : String) (k : Int), parseDelayField s = some k ↔
        ((s = blank ∧ k = 2) ∨ (¬s = blank ∧ parseInt s = some k ∧ k ∈ delaySet))) := by
  refine ⟨?_, ?_, ?_, ?_⟩
  · intro d
    unfold parse_row
    rw [getF_take d 0 (by omega), getF_take d 1 (by omega), getF_take d 2 (by omega),
      getF_take d 3 (by omega), getF_take d 4 (by omega), getF_take d 5 (by omega),
      getF_take d 6 (by omega), getF_take d 7 (by omega)]
  · intro d ch h
    unfold parse_row at h
    have e0 : ∃ v, parseIndexField (getF d 0) = some v := by
      cases hx : parseIndexField (getF d 0)
      · rw [hx] at h
        exact absurd h (by simp)
      · exact ⟨_, rfl⟩
    obtain ⟨idx, h0⟩ := e0
    rw [h0, Option.some_bind] at h
    have e1 : ∃ v, parseNameField (getF d 1) = some v := by
      cases hx : parseNameField (getF d 1)
      · rw [hx] at h
        exact absurd h (by simp)
      · exact ⟨_, rfl⟩
    obtain ⟨nm, h1⟩ := e1
    rw [h1, Option.some_bind] at h
    have e2 : ∃ v, parse_frequency (getF d 2) = some v := by
      cases hx : parse_frequency (getF d 2)
      · rw [hx] at h
        exact absurd h (by simp)
      · exact ⟨_, rfl⟩
    obtain ⟨fq, h2⟩ := e2
    rw [h2, Option.some_bind] at h
    have e3 : ∃ v, parseModField (getF d 3) = some v := by
      cases hx : parseModField (getF d 3)
      · rw [hx] at h
        exact absurd h (by simp)
      · exact ⟨_, rfl⟩
    obtain ⟨md, h3⟩ := e3
    rw [h3, Option.some_bind] at h
    have e4 : ∃ v, parseTqField (getF d 4) = some v := by
      cases hx : parseTqField (getF d 4)
      · rw [hx] at h
        exact absurd h (by simp)
      · exact ⟨_, rfl⟩
    obtain ⟨tq2, h4⟩ := e4
    rw [h4, Option.some_bind] at h
    have e5 : ∃ v, parseDelayField (getF d 5) = some v := by
      cases hx : parseDelayField (getF d 5)
      · rw [hx] at h
        exact absurd h (by simp)
      · exact ⟨_, rfl⟩
    obtain ⟨dl, h5⟩ := e5
    rw [h5, Option.some_bind] at h
    have e6 : ∃ v, parseBoolField (getF d 6) = some v := by
      cases hx : parseBoolField (getF d 6)
      · rw [hx] at h
        exact absurd h (by simp)
      · exact ⟨_, rfl⟩
    obtain ⟨lo, h6⟩ := e6
    rw [h6, Option.some_bind] at h
    have e7 : ∃ v, parseBoolField (getF d 7) = some v := by
      cases hx : parseBoolField (getF d 7)
      · rw [hx] at h
        exact absurd h (by simp)
      · exact ⟨_, rfl⟩
    obtain ⟨pr, h7⟩ := e7
    rw [h7, Option.some_bind] at h
    injection h with hch
    subst hch
    refine ⟨?_, ?_, ?_, ?_, ?_⟩
    · intro hb
      rw [hb] at h3
      have he : parseModField blank = some ("AUTO") := rfl
      have := he.symm.trans h3
      injection this with hv
      exact hv.symm
    · intro hb
      rw [hb] at h4
      have he : parseTqField blank = some 0 := rfl
      have := he.symm.trans h4
      injection this with hv
      exact hv.symm
    · intro hb
      rw [hb] at h5
      have he : parseDelayField blank = some 2 := rfl
      have := he.symm.trans h5
      injection this with hv
      exact hv.symm
    · intro hb
      rw [hb] at h6
      have he : parseBoolField blank = some false := rfl
      have := he.symm.trans h6
      injection this with hv
      exact hv.symm
    · intro hb
      rw [hb] at h7
      have he : parseBoolField blank = some false := rfl
      have := he.symm.trans h7
      injection this with hv
      exact hv.symm
  · intro s b
    unfold parseBoolField
    by_cases hb : s = blank
    · subst hb
      rw [if_pos rfl]
      constructor
      · intro hsb
        injection hsb with hbb
        exact Or.inl ⟨hbb.symm, by decide⟩
      · rintro (⟨rfl, _⟩ | ⟨rfl, hm⟩)
        · rfl
        · exact absurd hm (by decide)
    · rw [if_neg hb]
      by_cases hf : lowerStr s = "0" ∨ lowerStr s = "no" ∨ lowerStr s = "false"
      · rw [if_pos hf]
        constructor
        · intro hsb
          injection hsb with hbb
          refine Or.inl ⟨hbb.symm, ?_⟩
          rcases hf with hx | hx | hx <;> simp [falsyList, hx]
        · rintro (⟨rfl, _⟩ | ⟨rfl, hm⟩)
          · rfl
          · rcases hf with hx | hx | hx <;> rw [hx] at hm <;> exact absurd hm (by decide)
      · rw [if_neg hf]
        by_cases ht : lowerStr s = "1" ∨ lowerStr s = "yes" ∨ lowerStr s = "true"
        · rw [if_pos ht]
          constructor
          · intro hsb
            injection hsb with hbb
            refine Or.inr ⟨hbb.symm, ?_⟩
            rcases ht with hx | hx | hx <;> simp [truthyList, hx]
          · rintro (⟨rfl, hm⟩ | ⟨rfl, _⟩)
            · simp only [falsyList, List.mem_cons, List.not_mem_nil, or_false] at hm
              rcases hm with hx | hx | hx | hx
              · exact absurd (Or.inl hx) hf
              · exact absurd (Or.inr (Or.inl hx)) hf
              · exact absurd (Or.inr (Or.inr hx)) hf
              · exact absurd (lowerStr_eq_blank hx) hb
            · rfl
        · rw [if_neg ht]
          constructor
          · intro hsb
            exact absurd hsb (by simp)
          · rintro (⟨rfl, hm⟩ | ⟨rfl, hm⟩)
            · simp only [falsyList, List.mem_cons, List.not_mem_nil, or_false] at hm
              rcases hm with hx | hx | hx | hx
              · exact absurd (Or.inl hx) hf
              · exact absurd (Or.inr (Or.inl hx)) hf
              · exact absurd (Or.inr (Or.inr hx)) hf
              · exact absurd (lowerStr_eq_blank hx) hb
            · simp only [truthyList, List.mem_cons, List.not_mem_nil, or_false] at hm
              rcases hm with hx | hx | hx
              · exact absurd (Or.inl hx) ht
              · exact absurd (Or.inr (Or.inl hx)) ht
              · exact absurd (Or.inr (Or.inr hx)) ht
  · intro s k
    unfold parseDelayField
    by_cases hb : s = blank
    · rw [if_pos hb]
      constructor
      · intro h
        injection h with hk
        exact Or.inl ⟨hb, hk.symm⟩
      · rintro (⟨_, rfl⟩ | ⟨hnb, _, _⟩)
        · rfl
        · exact absurd hb hnb
    · rw [if_neg hb]
      cases hp : parseInt s with
      | none => simp [hb]
      | some v =>
        dsimp only
        by_cases hv : v ∈ delaySet
        · rw [if_pos hv]
          constructor
          · intro h
            injection h with hk
            subst hk
            exact Or.inr ⟨hb, rfl, hv⟩
          · rintro (⟨hx, _⟩ | ⟨_, hpk, _⟩)
            · exact absurd hx hb
            · injection hpk with hk
              rw [hk]
        · rw [if_neg hv]
          constructor
          · intro h
            exact absurd h (by simp)
          · rintro (⟨hx, _⟩ | ⟨_, hpk, hkm⟩)
            · exact absurd hx hb
            · injection hpk with hk
              subst hk
              exact absurd hkm hv

/-! ### The frequency grammar (C3) -/

/-- The numeric grammar of `parse_frequency`, written from the spec's words
as the refinement target for C3: 1-4 integer digits, an optional fractional
part (a dot plus at least one digit), then optional whitespace and an
optional case-insensitive `mhz` unit suffix. -/
def freqGrammar (l : List Char) : Prop :=
  ∃ d f w u : List Char,
    l = d ++ f ++ w ++ u ∧
    ¬d = [] ∧ d.length ≤ 4 ∧ (∀ c ∈ d, isDigitB c = true) ∧
    (f = [] ∨ ∃ fd, f = '.' :: fd ∧ ¬fd = [] ∧ (∀ c ∈ fd, isDigitB c = true)) ∧
    (∀ c ∈ w, isSpace c = true) ∧
    (u = [] ∨ u.map lowerChar = ['m', 'h', 'z'])

/-- The head of a whitespace block followed by an optional `mhz` suffix is
neither a digit nor a dot. -/
theorem wu_head_facts {w u : List Char}
    (hw : ∀ c ∈ w, isSpace c = true)
    (hu : u = [] ∨ u.map lowerChar = ['m', 'h', 'z']) :
    ∀ c, (w ++ u).head? = some c → (isDigitB c = false ∧ ¬c = '.') := by
  intro c hc
  cases w with
  | cons cw w' =>
    simp only [List.cons_append, List.head?_cons, Option.some.injEq] at hc
    subst hc
    have hsp := hw cw (by simp)
    refine ⟨space_not_digit hsp, ?_⟩
    intro he
    rw [he] at hsp
    exact absurd hsp (by decide)
  | nil =>
    simp only [List.nil_append] at hc
    rcases hu with rfl | hmap
    · simp at hc
    · cases u with
      | nil => simp at hc
      | cons c0 u' =>
        simp only [List.head?_cons, Option.some.injEq] at hc
        subst hc
        have hm : lowerChar c0 = 'm' := by
          simp only [List.map_cons, List.cons.injEq] at hmap
          exact hmap.1
        refine ⟨(lower_low_facts (by decide) hm).1, ?_⟩
        intro he
        rw [he] at hm
        exact absurd hm (by decide)

/-- A whitespace block followed by an optional `mhz` suffix satisfies the
`\s*(?:mhz)?$` tail check. -/
theorem freqSuffix_wu {w u : List Char}
    (hw : ∀ c ∈ w, isSpace c = true)
    (hu : u = [] ∨ u.map lowerChar = ['m', 'h', 'z']) :
    freqSuffix (w ++ u) = true := by
  unfold freqSuffix
  rw [dw_app_all w u hw]
  have hid : u.dropWhile isSpace = u := by
    apply dw_id_of_head
    intro c hc
    rcases hu with rfl | hmap
    · simp at hc
    · cases u with
      | nil => simp at hc
      | cons c0 u' =>
        simp only [List.head?_cons, Option.some.injEq] at hc
        subst hc
        have hm : lowerChar c0 = 'm' := by
          simp only [List.map_cons, List.cons.injEq] at hmap
          exact hmap.1
        exact (lower_low_facts (by decide) hm).2
  rw [hid]
  rcases hu with rfl | hmap
  · simp
  · simp [hmap]

/-- Every input in the grammar is accepted by `parse_frequency`. -/
theorem freq_backward (s : String) (d f w u : List Char)
    (heq : s.data = d ++ f ++ w ++ u)
    (hd_ne : ¬d = []) (hd_len : d.length ≤ 4) (hd_dig : ∀ c ∈ d, isDigitB c = true)
    (hf : f = [] ∨ ∃ fd, f = '.' :: fd ∧ ¬fd = [] ∧ (∀ c ∈ fd, isDigitB c = true))
    (hw : ∀ c ∈ w, isSpace c = true)
    (hu : u = [] ∨ u.map lowerChar = ['m', 'h', 'z']) :
    (parse_frequency s).isSome = true := by
  have hd_pos : 0 < d.length := List.length_pos.mpr hd_ne
  unfold parse_frequency
  have heq2 : s.data = d ++ (f ++ (w ++ u)) := by
    rw [heq]
    simp [List.append_assoc]
  rcases hf with rfl | ⟨fd, rfl, hfd_ne, hfd_dig⟩
  · -- no fractional part
    rw [List.nil_append] at heq2
    have htw := tw_app d (w ++ u) hd_dig (fun c hc => (wu_head_facts hw hu c hc).1)
    rw [heq2, htw.1, htw.2]
    rw [if_neg (by omega)]
    cases hwu : w ++ u with
    | nil => simp [freqTail]
    | cons c rest2 =>
      have hfacts := wu_head_facts hw hu c (by rw [hwu]; rfl)
      simp only [freqTail]
      rw [if_neg hfacts.2]
      have hsuf : freqSuffix (c :: rest2) = true := by
        rw [← hwu]
        exact freqSuffix_wu hw hu
      rw [if_pos hsuf]
      simp
  · -- fractional part '.' :: fd
    have hrest : ('.' :: fd) ++ (w ++ u) = '.' :: (fd ++ (w ++ u)) := by simp
    rw [hrest] at heq2
    have hhead : ∀ c, ('.' :: (fd ++ (w ++ u))).head? = some c → isDigitB c = false := by
      intro c hc
      simp only [List.head?_cons, Option.some.injEq] at hc
      subst hc
      decide
    have htw := tw_app d ('.' :: (fd ++ (w ++ u))) hd_dig hhead
    rw [heq2, htw.1, htw.2]
    rw [if_neg (by omega)]
    simp only [freqTail]
    rw [if_pos trivial]
    have htw2 := tw_app fd (w ++ u) hfd_dig (fun c hc => (wu_head_facts hw hu c hc).1)
    rw [htw2.1, htw2.2]
    rw [if_neg hfd_ne]
    rw [if_pos (freqSuffix_wu hw hu)]
    simp

/-- Every accepted input of `parse_frequency` lies in the grammar. -/
theorem freq_forward (s : String) (h : (parse_frequency s).isSome = true) :
    freqGrammar s.data := by
  unfold parse_frequency at h
  by_cases hlen : (s.data.takeWhile isDigitB).length < 1 ∨ 4 < (s.data.takeWhile isDigitB).length
  · rw [if_pos hlen] at h
    simp at h
  · rw [if_neg hlen] at h
    simp only [not_or] at hlen
    obtain ⟨hl1, hl2⟩ := hlen
    have hd_ne : ¬s.data.takeWhile isDigitB = [] := by
      intro he
      apply hl1
      rw [he]
      simp
    have hd_len : (s.data.takeWhile isDigitB).length ≤ 4 := by omega
    have hsplit : s.data = s.data.takeWhile isDigitB ++ s.data.dropWhile isDigitB :=
      (List.takeWhile_append_dropWhile _ _).symm
    have hd_dig : ∀ c ∈ s.data.takeWhile isDigitB, isDigitB c = true :=
      fun c hc => List.mem_takeWhile_imp hc
    cases hr : s.data.dropWhile isDigitB with
    | nil =>
      refine ⟨s.data.takeWhile isDigitB, [], [], [], ?_, hd_ne, hd_len, hd_dig,
        Or.inl rfl, by simp, Or.inl rfl⟩
      conv_lhs => rw [hsplit, hr]
      simp
    | cons c r2 =>
      rw [hr] at h
      rw [hr] at hsplit
      simp only [freqTail] at h
      by_cases hc : c = '.'
      · rw [if_pos hc] at h
        subst hc
        by_cases hfd : r2.takeWhile isDigitB = []
        · rw [if_pos hfd] at h
          simp at h
        · rw [if_neg hfd] at h
          by_cases hsuf : freqSuffix (r2.dropWhile isDigitB) = true
          · refine ⟨s.data.takeWhile isDigitB, '.' :: r2.takeWhile isDigitB,
              (r2.dropWhile isDigitB).takeWhile isSpace,
              (r2.dropWhile isDigitB).dropWhile isSpace, ?_, hd_ne, hd_len, hd_dig,
              Or.inr ⟨r2.takeWhile isDigitB, rfl, hfd, fun c hc => List.mem_takeWhile_imp hc⟩,
              fun c hc => List.mem_takeWhile_imp hc, ?_⟩
            · conv_lhs => rw [hsplit]
              simp [List.append_assoc]
            · have hs2 := hsuf
              unfold freqSuffix at hs2
              simpa using hs2
          · rw [if_neg hsuf] at h
            simp at h
      · rw [if_neg hc] at h
        by_cases hsuf : freqSuffix (c :: r2) = true
        · refine ⟨s.data.takeWhile isDigitB, [], (c :: r2).takeWhile isSpace,
            (c :: r2).dropWhile isSpace, ?_, hd_ne, hd_len, hd_dig, Or.inl rfl,
            fun c2 hc2 => List.mem_takeWhile_imp hc2, ?_⟩
          · conv_lhs => rw [hsplit]
            simp [List.append_assoc]
          · have hs2 := hsuf
            unfold freqSuffix at hs2
            simpa using hs2
        · rw [if_neg hsuf] at h
          simp at h

/-- Any successful `parse_frequency` result is `freqJoin` of two digit
blocks. -/
theorem parse_frequency_some_shape {s : String} {r : String}
    (h : parse_frequency s = some r) :
    ∃ d f, r = freqJoin d f ∧ (∀ c ∈ d, isDigitB c = true)
      ∧ (∀ c ∈ f, isDigitB c = true) := by
  unfold parse_frequency at h
  by_cases hlen : (s.data.takeWhile isDigitB).length < 1 ∨ 4 < (s.data.takeWhile isDigitB).length
  · rw [if_pos hlen] at h
    exact absurd h (by simp)
  · rw [if_neg hlen] at h
    have hd_dig : ∀ c ∈ s.data.takeWhile isDigitB, isDigitB c = true :=
      fun c hc => List.mem_takeWhile_imp hc
    cases hr : s.data.dropWhile isDigitB with
    | nil =>
      rw [hr] at h
      simp only [freqTail] at h
      injection h with hh
      exact ⟨s.data.takeWhile isDigitB, [], hh.symm, hd_dig, by simp⟩
    | cons c r2 =>
      rw [hr] at h
      simp only [freqTail] at h
      by_cases hc : c = '.'
      · rw [if_pos hc] at h
        by_cases hfd : r2.takeWhile isDigitB = []
        · rw [if_pos hfd] at h
          exact absurd h (by simp)
        · rw [if_neg hfd] at h
          by_cases hsuf : freqSuffix (r2.dropWhile isDigitB) = true
          · rw [if_pos hsuf] at h
            injection h with hh
            exact ⟨s.data.takeWhile isDigitB, r2.takeWhile isDigitB, hh.symm, hd_dig,
              fun c2 hc2 => List.mem_takeWhile_imp hc2⟩
          · rw [if_neg hsuf] at h
            exact absurd h (by simp)
      · rw [if_neg hc] at h
        by_cases hsuf : freqSuffix (c :: r2) = true
        · rw [if_pos hsuf] at h
          injection h with hh
          exact ⟨s.data.takeWhile isDigitB, [], hh.symm, hd_dig, by simp⟩
        · rw [if_neg hsuf] at h
          exact absurd h (by simp)

/-- The normal form of a `freqJoin` result: integer digits with no leading
zero, a dot, then exactly 4 fractional digits. -/
theorem freqJoin_shape (d f : List Char) (hd : ∀ c ∈ d, isDigitB c = true)
    (hf : ∀ c ∈ f, isDigitB c = true) :
    ∃ ip fp, (freqJoin d f).data = ip ++ '.' :: fp ∧ fp.length = 4
      ∧ (∀ c ∈ ip, isDigitB c = true) ∧ (∀ c ∈ fp, isDigitB c = true)
      ∧ (∀ c ∈ ip.take 1, ¬c = '0') := by
  refine ⟨d.dropWhile (fun c => c == '0'), fracPad f, rfl, ?_, ?_, ?_, ?_⟩
  · unfold fracPad
    simp only [List.length_append, List.length_take, List.length_replicate]
    omega
  · intro c hc
    exact hd c (List.dropWhile_subset _ hc)
  · intro c hc
    unfold fracPad at hc
    rcases List.mem_append.mp hc with h1 | h1
    · exact hf c (List.take_subset _ _ h1)
    · have hc0 : c = '0' := List.eq_of_mem_replicate h1
      subst hc0
      decide
  · intro c hc
    cases hdw : d.dropWhile (fun c => c == '0') with
    | nil =>
      rw [hdw] at hc
      simp at hc
    | cons c0 rest =>
      rw [hdw] at hc
      simp only [List.take_succ_cons, List.take_zero, List.mem_singleton] at hc
      subst hc
      have hdf := dw_head_false d hdw
      intro he
      rw [he] at hdf
      exact absurd hdf (by decide)

/-- C3 (amended): `parse_frequency` accepts exactly the grammar of 1-4
integer digits with optional fractional part and optional unit suffix; it
strips leading zeros from the integer part and right-pads or truncates the
fractional part to exactly 4 digits; the inputs "446.0062", "446.006200" and
"0446.0062" normalize to "446.0062", while "abc" and "446006.2" (6 integer
digits) are rejected as invalid. -/
theorem c3_frequency_normalization_amended :
    (∀ s : String, (parse_frequency s).isSome = true ↔ freqGrammar s.data)
    ∧ (∀ s r : String, parse_frequency s = some r →
        ∃ ip fp, r.data = ip ++ '.' :: fp ∧ fp.length = 4
          ∧ (∀ c ∈ ip, isDigitB c = true) ∧ (∀ c ∈ fp, isDigitB c = true)
          ∧ (∀ c ∈ ip.take 1, ¬c = '0'))
    ∧ parse_frequency ("446.0062") = some ("446.0062")
    ∧ parse_frequency ("446.006200") = some ("446.0062")
    ∧ parse_frequency ("0446.0062") = some ("446.0062")
    ∧ parse_frequency ("abc") = none
    ∧ parse_frequency ("446006.2") = none := by
  refine ⟨?_, ?_, by decide, by decide, by decide, by decide, by decide⟩
  · intro s
    constructor
    · exact freq_forward s
    · rintro ⟨d, f, w, u, heq, hd_ne, hd_len, hd_dig, hf, hw, hu⟩
      exact freq_backward s d f w u heq hd_ne hd_len hd_dig hf hw hu
  · intro s r h
    obtain ⟨d, f, heq, hd, hf⟩ := parse_frequency_some_shape h
    rw [heq]
    exact freqJoin_shape d f hd hf

/-- Witness for C3 at "0446.0062": the normalized result has integer digits
without a leading zero and exactly 4 fractional digits. -/
theorem c3_frequency_normalization_amended_witness :
    ∃ ip fp, ("446.0062" : String).data = ip ++ '.' :: fp ∧ fp.length = 4
      ∧ (∀ c ∈ ip, isDigitB c = true) ∧ (∀ c ∈ fp, isDigitB c = true)
      ∧ (∀ c ∈ ip.take 1, ¬c = '0') :=
  c3_frequency_normalization_amended.2.1 ("0446.0062") ("446.0062") (by decide)

/-- Counterexample for C3 as stated: "446006.2" has six integer digits, so
the source's `RE_FREQ` (1-4 integer digits) rejects it instead of
normalizing it to "446.0062". -/
theorem c3_counterexample :
    parse_frequency ("446006.2") = none
    ∧ ¬parse_frequency ("446006.2") = some ("446.0062") := by
  decide

/-- Counterexample for C8 as stated: the uppercase spelling "TRUE" is outside
both claimed vocabularies yet is accepted for lockout (the source lowercases
the field first). -/
theorem c8_counterexample :
    parse_row (["1", "A", "446.0", "", "", "", "TRUE"]) =
      some ⟨1, "A", "446.0000", "AUTO", 0, 2, true, false⟩
    ∧ ¬("TRUE" : String) ∈ truthyList ∧ ¬("TRUE" : String) ∈ falsyList := by
  decide

/-- Witness for C8 at concrete inputs: a 3-column row equals its 8-column
truncation, all defaults fire, and the bool/delay vocabularies decide
concrete fields. -/
theorem c8_columns_defaults_amended_witness :
    parse_row dupRow1 = parse_row (dupRow1.take 8)
    ∧ dupCh1.modulation = "AUTO"
    ∧ dupCh1.tqcode = 0
    ∧ dupCh1.delay = 2
    ∧ dupCh1.lockout = false
    ∧ dupCh1.priority = false
    ∧ parseBoolField ("TRUE") = some true
    ∧ parseDelayField ("3") = some 3 := by
  have hd := c8_columns_defaults_amended.2.1 dupRow1 dupCh1 (by decide)
  exact ⟨c8_columns_defaults_amended.1 dupRow1, hd.1 (by decide), hd.2.1 (by decide),
    hd.2.2.1 (by decide), hd.2.2.2.1 (by decide), hd.2.2.2.2 (by decide),
    (c8_columns_defaults_amended.2.2.1 ("TRUE") true).mpr (Or.inr (by decide)),
    (c8_columns_defaults_amended.2.2.2 ("3") 3).mpr (Or.inr (by decide))⟩
